import Mathlib

/-!
Shallow embedding of the market clustering engine of `market-alert-bot`
(`src/clustering.py`, data model in `src/market.py`), together with proofs
about the claims of its specification.

Modelling conventions:
* Python's optional string fields (`event_id`, `event_title`, `subtitle`) are
  modelled as plain `String`s where `""` stands for "absent"; every use in
  `clustering.py` tests these fields by Python truthiness (`if m.event_title:`,
  `market.event_id or ...`), which identifies `None` with `""`.
* `volume: float` is modelled as `ℚ` (exact arithmetic).
* Regex scans (`\b20\d{2}\b`, the proper-noun pattern, the `vs` pattern,
  `\b\w+\b`) are implemented as character-level scanners with Python
  `re.search`/`findall` semantics over ASCII text; `\w` is `[A-Za-z0-9_]`,
  `\s` is whitespace.
* Python `sorted(key=..., reverse=True)` is a stable descending sort,
  modelled by `sortByDesc`.
* The only operation of `cluster_markets` that could raise on well-formed
  input (indexing `sorted_group[0]`) is modelled with `Option`; the engine
  is therefore `clusterMarkets : List Market → Option (List MarketCluster)`,
  with `none` standing for a Python exception.
-/

namespace MarketBot

/-- `Market` from `src/market.py` (fields used by the clustering engine;
the remaining fields — category, tags, odds, event date, status, raw payload —
are opaque payload never read nor written by `clustering.py`). -/
structure Market where
  id : String
  platform : String
  marketId : String
  title : String
  eventId : String
  eventTitle : String
  subtitle : String
  volume : ℚ
deriving DecidableEq, Repr

/-- `MarketCluster` from `src/clustering.py` lines 19-26. -/
structure MarketCluster where
  primaryMarket : Market
  relatedMarkets : List Market
  eventId : String
  eventTitle : String
  platforms : List String
deriving DecidableEq, Repr

/-- Rational addition, written out over `mkRat` so that the kernel can
evaluate it on concrete inputs (`ratAdd_eq` below shows it is `+` on `ℚ`). -/
def ratAdd (a b : ℚ) : ℚ :=
  mkRat (a.num * b.den + b.num * a.den) (a.den * b.den)

/-- `MarketCluster.total_volume` (clustering.py line 29). -/
def MarketCluster.totalVolume (c : MarketCluster) : ℚ :=
  ratAdd c.primaryMarket.volume
    (c.relatedMarkets.foldr (fun m acc => ratAdd m.volume acc) 0)

/-- `MarketCluster.all_markets` (clustering.py line 33). -/
def MarketCluster.allMarkets (c : MarketCluster) : List Market :=
  c.primaryMarket :: c.relatedMarkets

/-- Lexicographic comparison of character lists by code points. -/
def charsLt : List Char → List Char → Bool
  | [], [] => false
  | [], _ :: _ => true
  | _ :: _, [] => false
  | c :: cs, d :: ds => if c < d then true else if d < c then false else charsLt cs ds

/-- Python string `<`: lexicographic comparison by code points. -/
def strLt (a b : String) : Bool :=
  charsLt a.toList b.toList

/-- Python `sep.join(parts)`. -/
def joinWith (sep : String) : List String → String
  | [] => ""
  | [x] => x
  | x :: y :: rest => x ++ sep ++ joinWith sep (y :: rest)

/-- Python `str.lower()` (character-wise ASCII lowercasing). -/
def toLowerStr (s : String) : String :=
  (s.toList.map Char.toLower).asString

/-- `MarketCluster.get_representative_text` (clustering.py lines 56-64). -/
def MarketCluster.getRepresentativeText (c : MarketCluster) : String :=
  joinWith " "
    ((if c.eventTitle ≠ "" then [c.eventTitle] else [])
      ++ [c.primaryMarket.title]
      ++ (if c.primaryMarket.subtitle ≠ "" then [c.primaryMarket.subtitle] else []))

/-- `ClusteringEngine.STOP_WORDS` (clustering.py lines 70-95). -/
def STOP_WORDS : List String :=
  ["will", "be", "is", "are", "was", "were", "been", "being",
   "have", "has", "had", "do", "does", "did", "doing",
   "can", "could", "would", "should", "may", "might", "must",
   "get", "got", "make", "made", "go", "going", "gone",
   "win", "wins", "won", "lose", "lost", "beat", "defeat",
   "become", "becomes", "happen", "happens",
   "the", "a", "an", "this", "that", "these", "those",
   "i", "you", "he", "she", "it", "we", "they",
   "my", "your", "his", "her", "its", "our", "their",
   "who", "what", "which", "where", "when", "why", "how",
   "in", "on", "at", "to", "for", "of", "with", "by",
   "from", "up", "down", "out", "off", "over", "under",
   "about", "into", "through", "during", "before", "after",
   "above", "below", "between", "against", "until", "unless",
   "and", "or", "but", "if", "then", "than", "so", "as",
   "next", "first", "last", "new", "old", "best", "top",
   "most", "more", "any", "all", "some", "other", "each",
   "market", "prediction", "odds", "bet", "betting", "price",
   "yes", "no", "winner", "lead", "leading",
   "january", "february", "march", "april", "may", "june",
   "july", "august", "september", "october", "november", "december",
   "monday", "tuesday", "wednesday", "thursday", "friday", "saturday", "sunday",
   "today", "tomorrow", "yesterday", "week", "month", "year",
   "end", "start", "begin", "beginning", "ending"]

/-- Python regex `\w`: word character (ASCII model). -/
def isWordChar (c : Char) : Bool :=
  c.isAlpha || c.isDigit || c == '_'

/-- Python regex `\s` / `str.split()` whitespace (ASCII model). -/
def isSpaceChar (c : Char) : Bool :=
  c.isWhitespace

/-- ASCII uppercase letter, for regex class `[A-Z]`. -/
def isUpperAZ (c : Char) : Bool :=
  'A' ≤ c && c ≤ 'Z'

/-- ASCII lowercase letter, for regex class `[a-z]`. -/
def isLowerAZ (c : Char) : Bool :=
  'a' ≤ c && c ≤ 'z'

/-- Auxiliary scanner for `YEAR_PATTERN.sub('', text)` where
`YEAR_PATTERN = re.compile(r'\b20\d{2}\b')` (clustering.py line 97).
`prevWord` records whether the character just before the current position is
a word character (for the leading `\b`). -/
def stripYearsAux : Nat → Bool → List Char → List Char
  | 0, _, cs => cs
  | _ + 1, _, [] => []
  | fuel + 1, prevWord, c :: cs =>
    if ¬prevWord ∧ c = '2' then
      match cs with
      | c2 :: d1 :: d2 :: rest =>
        if c2 = '0' ∧ d1.isDigit ∧ d2.isDigit ∧ (rest = [] ∨ ¬isWordChar (rest.headD ' ')) then
          stripYearsAux fuel true rest
        else
          c :: stripYearsAux fuel (isWordChar c) cs
      | _ => c :: stripYearsAux fuel (isWordChar c) cs
    else
      c :: stripYearsAux fuel (isWordChar c) cs

/-- `self.YEAR_PATTERN.sub('', text)`: delete every standalone `20\d{2}` token. -/
def stripYears (s : String) : String :=
  (stripYearsAux (s.toList.length + 1) false s.toList).asString

/-- Python `p.lower().replace(' ', '_')` used on proper-noun matches
(clustering.py line 237). -/
def lowerUnderscore (s : String) : String :=
  ((s.toList.map Char.toLower).map (fun c => if c == ' ' then '_' else c)).asString

/-- Whole word run shaped like regex `[A-Z][a-z]+` (at least two characters,
first uppercase, rest lowercase). -/
def capShaped : List Char → Bool
  | c :: c2 :: rest => isUpperAZ c && isLowerAZ c2 && rest.all isLowerAZ
  | _ => false

/-- Greedy continuation `(?:\s+[A-Z][a-z]+)*` of a proper-noun match:
extend the accumulated match text while a pure-whitespace gap is followed by
another `[A-Z][a-z]+`-shaped word run. Returns the match text and the rest. -/
def pnExtend : Nat → List Char → List Char → List Char × List Char
  | 0, acc, cs => (acc, cs)
  | fuel + 1, acc, cs =>
    let ws := cs.takeWhile isSpaceChar
    let rest := cs.dropWhile isSpaceChar
    if ws ≠ [] then
      let run := rest.takeWhile isWordChar
      let rest2 := rest.dropWhile isWordChar
      if capShaped run then pnExtend fuel (acc ++ ws ++ run) rest2 else (acc, cs)
    else (acc, cs)

/-- `re.findall(r'\b([A-Z][a-z]+(?:\s+[A-Z][a-z]+)*)\b', text)`
(clustering.py line 236): non-overlapping left-to-right matches. A match can
only start at the beginning of a maximal word run (`\b`), the run must be
entirely `[A-Z][a-z]+`-shaped (trailing `\b`), and consecutive cap-shaped runs
separated by whitespace alone are joined greedily into one match. -/
def pnAux : Nat → List Char → List (List Char)
  | 0, _ => []
  | _ + 1, [] => []
  | fuel + 1, c :: cs =>
    if isWordChar c then
      let run := (c :: cs).takeWhile isWordChar
      let rest := (c :: cs).dropWhile isWordChar
      if capShaped run then
        let e := pnExtend fuel run rest
        e.1 :: pnAux fuel e.2
      else pnAux fuel rest
    else pnAux fuel cs

/-- All raw proper-noun matches of a text (original case, gaps included,
exactly as Python's `findall` group values). -/
def properNounMatches (s : String) : List String :=
  (pnAux (s.toList.length + 1) s.toList).map List.asString

/-- Python `max(proper_nouns, key=len)`: first element of maximal length. -/
def firstLongest (best : String) : List String → String
  | [] => best
  | p :: rest => if p.length > best.length then firstLongest p rest else firstLongest best rest

/-- The separator alternatives of `(?:vs\.?|versus|v\.?|@)`, tried with the
following `\s+` requirement; at any text position at most one of them can
match followed by whitespace, so the listed order is immaterial. -/
def sepAlts : List (List Char) :=
  [['v', 'e', 'r', 's', 'u', 's'], ['v', 's', '.'], ['v', 's'], ['v', '.'], ['v'], ['@']]

/-- Case-insensitive literal prefix match, returning the rest. -/
def dropPrefixCI : List Char → List Char → Option (List Char)
  | [], cs => some cs
  | _ :: _, [] => none
  | p :: ps, c :: cs => if c.toLower == p.toLower then dropPrefixCI ps cs else none

/-- Match one separator alternative followed by `\s+`; consume both. -/
def matchSepWs (cs : List Char) : Option (List Char) :=
  sepAlts.foldr
    (fun sep acc =>
      match dropPrefixCI sep cs with
      | some rest =>
        if rest.takeWhile isSpaceChar ≠ [] then some (rest.dropWhile isSpaceChar) else acc
      | none => acc)
    none

/-- `re.search(r'(\w+)\s+(?:vs\.?|versus|v\.?|@)\s+(\w+)', text, re.IGNORECASE)`
(clustering.py line 256): leftmost match, returning the two captured groups.
Because `(\w+)` backtracking cannot move the following `\s+` inside a word
run, group 1 is always a maximal word run; on failure the scan resumes after
that whole run. -/
def findVsAux : Nat → List Char → Option (List Char × List Char)
  | 0, _ => none
  | _ + 1, [] => none
  | fuel + 1, c :: cs =>
    if isWordChar c then
      let w1 := (c :: cs).takeWhile isWordChar
      let r1 := (c :: cs).dropWhile isWordChar
      let ws1 := r1.takeWhile isSpaceChar
      let r2 := r1.dropWhile isSpaceChar
      if ws1 ≠ [] then
        match matchSepWs r2 with
        | some r3 =>
          let w2 := r3.takeWhile isWordChar
          if w2 ≠ [] then some (w1, w2) else findVsAux fuel r1
        | none => findVsAux fuel r1
      else findVsAux fuel r1
    else findVsAux fuel cs

/-- The `vs` pattern search on a string, yielding the two groups. -/
def findVs (s : String) : Option (String × String) :=
  match findVsAux (s.toList.length + 1) s.toList with
  | some (w1, w2) => some (w1.asString, w2.asString)
  | none => none

/-- `re.sub(r'[^a-z0-9\s]', ' ', text_lower)` (clustering.py line 229). -/
def cleanChars (s : String) : String :=
  (s.toList.map (fun c => if isLowerAZ c || c.isDigit || isSpaceChar c then c else ' ')).asString

/-- Split a character list at separator characters, dropping empty pieces. -/
def splitTokensAux (sep : Char → Bool) : Nat → List Char → List (List Char)
  | 0, _ => []
  | _ + 1, [] => []
  | fuel + 1, c :: cs =>
    if sep c then splitTokensAux sep fuel cs
    else
      ((c :: cs).takeWhile (fun x => !sep x))
        :: splitTokensAux sep fuel ((c :: cs).dropWhile (fun x => !sep x))

/-- Python `str.split()` with no argument: split on whitespace runs,
discarding empty pieces. -/
def splitWs (s : String) : List String :=
  (splitTokensAux isSpaceChar (s.toList.length + 1) s.toList).map List.asString

/-- `re.findall(r'\b\w+\b', t)`: the maximal word runs of `t`. -/
def wordRuns (s : String) : List String :=
  (splitTokensAux (fun c => !isWordChar c) (s.toList.length + 1) s.toList).map List.asString

/-- The stop-filtered, length>2 token list of the normalized text
(`words`, clustering.py lines 228-231). -/
def keyWords (text : String) : List String :=
  (splitWs (cleanChars (toLowerStr text))).filter (fun w => w ∉ STOP_WORDS ∧ w.length > 2)

/-- The processed proper-noun runs (`proper_nouns`, clustering.py
lines 236-238): raw matches of length > 3, lowercased and
underscore-joined, with stop words discarded. -/
def properNounsOf (text : String) : List String :=
  (((properNounMatches text).filter (fun p => p.length > 3)).map lowerUnderscore).filter
    (fun p => p ∉ STOP_WORDS)

/-- Key 1, proper nouns (clustering.py lines 240-247): the first longest run
if longer than 4 characters, plus the combination of the first two runs when
at least two exist. -/
def properNounKeys (text : String) : List String :=
  match properNounsOf text with
  | [] => []
  | p :: rest =>
    let longest := firstLongest p rest
    (if longest.length > 4 then [longest] else [])
      ++ (match rest with
          | [] => []
          | q :: _ => [p ++ "_" ++ q])

/-- Key 2, significant words (clustering.py lines 250-253): only when no
proper-noun key was emitted, at least 3 stop-filtered tokens remain and at
least 2 of them have length ≥ 4; joins the first three length-≥4 tokens. -/
def fallbackKeys (text : String) : List String :=
  if properNounKeys text = [] ∧ (keyWords text).length ≥ 3 then
    if ((keyWords text).filter (fun w => w.length ≥ 4)).length ≥ 2 then
      [joinWith "_" (((keyWords text).filter (fun w => w.length ≥ 4)).take 3)]
    else []
  else []

/-- Key 3, team-vs-team pattern (clustering.py lines 256-262). -/
def vsKeys (text : String) : List String :=
  match findVs text with
  | some (g1, g2) =>
    let team1 := toLowerStr g1
    let team2 := toLowerStr g2
    if team1 ∉ STOP_WORDS ∧ team2 ∉ STOP_WORDS then
      [if strLt team2 team1 then "vs_" ++ team2 ++ "_" ++ team1
       else "vs_" ++ team1 ++ "_" ++ team2]
    else []
  | none => []

/-- `ClusteringEngine._generate_cluster_keys` applied to an already
year-stripped text (clustering.py lines 228-264; the year stripping of lines
223-226 is applied by `generateClusterKeys`). -/
def keysFromText (text : String) : List String :=
  properNounKeys text ++ fallbackKeys text ++ vsKeys text

/-- `ClusteringEngine._generate_cluster_keys` (clustering.py lines 221-264). -/
def generateClusterKeys (c : MarketCluster) : List String :=
  keysFromText (stripYears c.getRepresentativeText)

/-- Python `set(...)` of a word list: distinct elements in first-seen order. -/
def mkSet (l : List String) : List String :=
  l.foldl (fun acc w => if w ∈ acc then acc else acc ++ [w]) []

/-- The stop-filtered, length>3, year-stripped word set of a cluster's
representative text (clustering.py lines 273-282). -/
def relWordSet (c : MarketCluster) : List String :=
  mkSet ((wordRuns (stripYears (toLowerStr c.getRepresentativeText))).filter
    (fun w => w ∉ STOP_WORDS ∧ w.length > 3))

/-- `similarity = intersection / union` of the two word sets
(clustering.py lines 287-290), `0` when the union is empty. -/
def clusterSimilarity (c1 c2 : MarketCluster) : ℚ :=
  let w1 := relWordSet c1
  let w2 := relWordSet c2
  let inter := (w1.filter (fun w => w ∈ w2)).length
  let union := (mkSet (w1 ++ w2)).length
  if union > 0 then mkRat (inter : Int) union else 0

/-- `ClusteringEngine._clusters_are_related` (clustering.py lines 266-293). -/
def clustersAreRelated (c1 c2 : MarketCluster) : Bool :=
  if c1.primaryMarket.platform = c2.primaryMarket.platform then false
  else if relWordSet c1 = [] ∨ relWordSet c2 = [] then false
  else decide (mkRat 35 100 ≤ clusterSimilarity c1 c2)

/-- Python `sorted(l, key=k, reverse=True)` is a stable descending sort:
insert `x` before the first element whose key is not greater. -/
def insertByDesc {α : Type} (k : α → ℚ) (x : α) : List α → List α
  | [] => [x]
  | y :: ys => if k x < k y then y :: insertByDesc k x ys else x :: y :: ys

/-- Stable sort, descending by key `k` (Python `sorted(key=k, reverse=True)`). -/
def sortByDesc {α : Type} (k : α → ℚ) : List α → List α
  | [] => []
  | x :: xs => insertByDesc k x (sortByDesc k xs)

/-- `sorted(group_markets, key=lambda m: m.volume, reverse=True)`. -/
def sortMarketsDesc : List Market → List Market :=
  sortByDesc Market.volume

/-- `sorted(clusters, key=lambda c: c.total_volume, reverse=True)`. -/
def sortClustersDesc : List MarketCluster → List MarketCluster :=
  sortByDesc MarketCluster.totalVolume

/-- Step A group key: `market.event_id or f"{market.platform}_{market.id}"`
(clustering.py line 119). -/
def groupKey (m : Market) : String :=
  if m.eventId ≠ "" then m.eventId else m.platform ++ "_" ++ m.id

/-- Append a market to its group in the insertion-ordered group list
(Python dict semantics, clustering.py lines 118-122). -/
def addToGroups (key : String) (m : Market) : List (String × List Market) → List (String × List Market)
  | [] => [(key, [m])]
  | (k, g) :: rest =>
    if k = key then (k, g ++ [m]) :: rest else (k, g) :: addToGroups key m rest

/-- Step A: group markets by `groupKey`, preserving dict insertion order. -/
def groupByEvent (markets : List Market) : List (String × List Market) :=
  markets.foldl (fun acc m => addToGroups (groupKey m) m acc) []

/-- The first non-empty `event_title` among the (sorted) group members
(clustering.py lines 135-139). -/
def firstEventTitle : List Market → String
  | [] => ""
  | m :: rest => if m.eventTitle ≠ "" then m.eventTitle else firstEventTitle rest

/-- Step B for one group (clustering.py lines 129-149): sort by volume
descending, primary = head, related = rest; `none` models the Python
`IndexError` on an empty group. -/
def buildCluster (eid : String) (group : List Market) : Option MarketCluster :=
  match sortMarketsDesc group with
  | [] => none
  | p :: rest =>
    let et := firstEventTitle (p :: rest)
    some
      { primaryMarket := p
        relatedMarkets := rest
        eventId := eid
        eventTitle := if et ≠ "" then et else p.title
        platforms := [p.platform] }

/-- Step B over all groups, in group order. -/
def initialClusters : List (String × List Market) → Option (List MarketCluster)
  | [] => some []
  | (k, g) :: rest => do
    let c ← buildCluster k g
    let cs ← initialClusters rest
    pure (c :: cs)

/-- Append a cluster to the inverted index entry of `key`
(clustering.py lines 157-162). -/
def addIndexEntry (key : String) (c : MarketCluster) :
    List (String × List MarketCluster) → List (String × List MarketCluster)
  | [] => [(key, [c])]
  | (k, l) :: rest =>
    if k = key then (k, l ++ [c]) :: rest else (k, l) :: addIndexEntry key c rest

/-- Step C: the key → clusters inverted index. -/
def buildIndex (clusters : List MarketCluster) : List (String × List MarketCluster) :=
  clusters.foldl
    (fun acc c => (generateClusterKeys c).foldl (fun acc2 key => addIndexEntry key c acc2) acc)
    []

/-- `cluster_keys.get(key, [])`. -/
def indexLookup (index : List (String × List MarketCluster)) (key : String) : List MarketCluster :=
  match index.find? (fun e => e.1 = key) with
  | some e => e.2
  | none => []

/-- Step D candidate gathering (clustering.py lines 176-184): the event ids of
the clusters sharing a key with the seed, distinct from it, not yet merged,
and validated by `_clusters_are_related`. (Python collects them into a set;
only membership in the collection is ever used.) -/
def gatherMatching (seed : MarketCluster) (index : List (String × List MarketCluster))
    (merged : List String) : List String :=
  (((generateClusterKeys seed).flatMap (fun key => indexLookup index key)).filter
    (fun other =>
      decide (other.eventId ≠ seed.eventId) && decide (other.eventId ∉ merged)
        && clustersAreRelated seed other)).map MarketCluster.eventId

/-- Step D absorption (clustering.py lines 187-200): the seed absorbs the full
membership of every matching cluster and re-sorts its related markets; when
nothing matched the seed is left untouched. -/
def absorb (seed : MarketCluster) (all : List MarketCluster) (matching : List String) :
    MarketCluster :=
  if matching = [] then seed
  else
    { seed with
      relatedMarkets :=
        sortMarketsDesc
          (seed.relatedMarkets
            ++ (all.filter (fun o => o.eventId ∈ matching)).flatMap MarketCluster.allMarkets)
      platforms :=
        seed.platforms
          ++ (all.filter (fun o => o.eventId ∈ matching)).flatMap MarketCluster.platforms }

/-- Step D main loop (clustering.py lines 171-203) over the volume-sorted
cluster list, carrying the set of already-merged event ids. -/
def stepD (all : List MarketCluster) (index : List (String × List MarketCluster)) :
    List MarketCluster → List String → List MarketCluster
  | [], _ => []
  | c :: rest, merged =>
    if c.eventId ∈ merged then stepD all index rest merged
    else
      let matching := gatherMatching c index merged
      absorb c all matching :: stepD all index rest (merged ++ matching ++ [c.eventId])

/-- `ClusteringEngine.cluster_markets` (clustering.py lines 102-219). -/
def clusterMarkets (markets : List Market) : Option (List MarketCluster) :=
  if markets = [] then some []
  else do
    let initial ← initialClusters (groupByEvent markets)
    let index := buildIndex initial
    let sortedClusters := sortClustersDesc initial
    pure (sortClustersDesc (stepD sortedClusters index sortedClusters []))

/-- All listing members of a list of clusters. -/
def clustersMarkets (l : List MarketCluster) : List Market :=
  l.flatMap MarketCluster.allMarkets

/-- The clusters of `l` whose event id has not been merged yet. -/
def liveClusters (merged : List String) (l : List MarketCluster) : List MarketCluster :=
  l.filter (fun o => decide (o.eventId ∉ merged))

/-! ### Concrete inputs used in witnesses and counterexamples -/

/-- Two kalshi markets sharing event id `e1` and a polymarket market with the
same title but higher volume than either kalshi market alone. -/
def exM1 : Market :=
  { id := "1", platform := "kalshi", marketId := "k1", title := "Alpha Bravo",
    eventId := "e1", eventTitle := "", subtitle := "", volume := 100 }

/-- Second member of event `e1`. -/
def exM2 : Market :=
  { id := "2", platform := "kalshi", marketId := "k2", title := "Other",
    eventId := "e1", eventTitle := "", subtitle := "", volume := 90 }

/-- Polymarket market about the same event, volume 150. -/
def exM3 : Market :=
  { id := "3", platform := "polymarket", marketId := "p1", title := "Alpha Bravo",
    eventId := "e2", eventTitle := "", subtitle := "", volume := 150 }

/-- The single cluster `clusterMarkets [exM1, exM2, exM3]` produces: the
`e1` seed absorbed the `e2` polymarket cluster, whose 150-volume market now
sits among the related markets of a primary with volume 100. -/
def exMerged : MarketCluster :=
  { primaryMarket := exM1, relatedMarkets := [exM3, exM2], eventId := "e1",
    eventTitle := "Alpha Bravo", platforms := ["kalshi", "polymarket"] }

/-- The first initial (Phase-B) cluster of `[exM1, exM2, exM3]`. -/
def exInit1 : MarketCluster :=
  { primaryMarket := exM1, relatedMarkets := [exM2], eventId := "e1",
    eventTitle := "Alpha Bravo", platforms := ["kalshi"] }

/-- The second initial (Phase-B) cluster of `[exM1, exM2, exM3]`. -/
def exInit2 : MarketCluster :=
  { primaryMarket := exM3, relatedMarkets := [], eventId := "e2",
    eventTitle := "Alpha Bravo", platforms := ["polymarket"] }

/-- A lone market with no event title. -/
def exSnow : Market :=
  { id := "9", platform := "kalshi", marketId := "k9", title := "Snow",
    eventId := "e9", eventTitle := "", subtitle := "", volume := 5 }

/-- The cluster `clusterMarkets [exSnow]` produces. -/
def exSnowCluster : MarketCluster :=
  { primaryMarket := exSnow, relatedMarkets := [], eventId := "e9",
    eventTitle := "Snow", platforms := ["kalshi"] }

/-- A cluster whose representative text contains a year token after `vs`. -/
def exVsYear : MarketCluster :=
  { primaryMarket :=
      { id := "7", platform := "kalshi", marketId := "k7", title := "Nuggets vs 2025",
        eventId := "e7", eventTitle := "", subtitle := "", volume := 1 },
    relatedMarkets := [], eventId := "e7", eventTitle := "", platforms := ["kalshi"] }

/-- A cluster with four stop-filtered tokens of which the first has length 3. -/
def exWords : MarketCluster :=
  { primaryMarket :=
      { id := "8", platform := "kalshi", marketId := "k8", title := "cat alpha bravo charlie",
        eventId := "e8", eventTitle := "", subtitle := "", volume := 1 },
    relatedMarkets := [], eventId := "e8", eventTitle := "", platforms := ["kalshi"] }

/-- A cluster mentioning the 4-digit year 1999 (outside the `20\d{2}` range). -/
def exYr1999 : MarketCluster :=
  { primaryMarket :=
      { id := "a", platform := "kalshi", marketId := "ka", title := "alpha bravo 1999 charlie",
        eventId := "ea", eventTitle := "", subtitle := "", volume := 1 },
    relatedMarkets := [], eventId := "ea", eventTitle := "", platforms := ["kalshi"] }

/-- The same text without the year mention. -/
def exNoYear : MarketCluster :=
  { primaryMarket :=
      { id := "b", platform := "kalshi", marketId := "kb", title := "alpha bravo charlie",
        eventId := "eb", eventTitle := "", subtitle := "", volume := 1 },
    relatedMarkets := [], eventId := "eb", eventTitle := "", platforms := ["kalshi"] }

/-- The same text with a 2024 mention instead. -/
def exYr2024 : MarketCluster :=
  { primaryMarket :=
      { id := "c", platform := "kalshi", marketId := "kc", title := "alpha bravo 2024 charlie",
        eventId := "ec", eventTitle := "", subtitle := "", volume := 1 },
    relatedMarkets := [], eventId := "ec", eventTitle := "", platforms := ["kalshi"] }

/-- Cluster titled "Alpha 2024 Bravo". -/
def exMid2024 : MarketCluster :=
  { primaryMarket :=
      { id := "d", platform := "kalshi", marketId := "kd", title := "Alpha 2024 Bravo",
        eventId := "ed", eventTitle := "", subtitle := "", volume := 1 },
    relatedMarkets := [], eventId := "ed", eventTitle := "", platforms := ["kalshi"] }

/-- Cluster titled "Alpha 2025 Bravo" (year-stripped text identical to
`exMid2024`). -/
def exMid2025 : MarketCluster :=
  { primaryMarket :=
      { id := "e", platform := "kalshi", marketId := "ke", title := "Alpha 2025 Bravo",
        eventId := "ee", eventTitle := "", subtitle := "", volume := 1 },
    relatedMarkets := [], eventId := "ee", eventTitle := "", platforms := ["kalshi"] }

/-- Cluster titled "Lakers vs Celtics". -/
def exLakers : MarketCluster :=
  { primaryMarket :=
      { id := "L", platform := "kalshi", marketId := "kL", title := "Lakers vs Celtics",
        eventId := "eL", eventTitle := "", subtitle := "", volume := 1 },
    relatedMarkets := [], eventId := "eL", eventTitle := "", platforms := ["kalshi"] }

/-- Cluster titled "Celtics vs Lakers", token order reversed. -/
def exCeltics : MarketCluster :=
  { primaryMarket :=
      { id := "M", platform := "kalshi", marketId := "kM", title := "Celtics vs Lakers",
        eventId := "eM", eventTitle := "", subtitle := "", volume := 1 },
    relatedMarkets := [], eventId := "eM", eventTitle := "", platforms := ["kalshi"] }

/-- Polymarket cluster with a text unrelated to `exLakers`. -/
def exZebra : MarketCluster :=
  { primaryMarket :=
      { id := "Z", platform := "polymarket", marketId := "pZ", title := "Zebra Quokka",
        eventId := "eZ", eventTitle := "", subtitle := "", volume := 1 },
    relatedMarkets := [], eventId := "eZ", eventTitle := "", platforms := ["polymarket"] }

/-- Kalshi cluster titled "Alpha Bravo". -/
def exAlphaK : MarketCluster :=
  { primaryMarket :=
      { id := "A", platform := "kalshi", marketId := "kA", title := "Alpha Bravo",
        eventId := "eA", eventTitle := "", subtitle := "", volume := 1 },
    relatedMarkets := [], eventId := "eA", eventTitle := "", platforms := ["kalshi"] }

/-- Polymarket cluster with the same text as `exAlphaK`. -/
def exAlphaP : MarketCluster :=
  { primaryMarket :=
      { id := "B", platform := "polymarket", marketId := "pB", title := "Alpha Bravo",
        eventId := "eB", eventTitle := "", subtitle := "", volume := 1 },
    relatedMarkets := [], eventId := "eB", eventTitle := "", platforms := ["polymarket"] }

/-! ### Arithmetic sanity lemma -/

theorem ratAdd_eq (a b : ℚ) : ratAdd a b = a + b := by
  unfold ratAdd
  rw [Rat.mkRat_eq_div]
  have hden_a : ((a.den : ℚ)) ≠ 0 := by
    exact_mod_cast a.den_nz
  have hden_b : ((b.den : ℚ)) ≠ 0 := by
    exact_mod_cast b.den_nz
  conv_rhs => rw [← Rat.num_div_den a, ← Rat.num_div_den b]
  rw [div_add_div _ _ hden_a hden_b]
  push_cast
  ring_nf

/-! ### Lemmas about the stable descending sort -/

theorem insertByDesc_perm {α : Type} (k : α → ℚ) (x : α) (l : List α) :
    (insertByDesc k x l).Perm (x :: l) := by
  induction l with
  | nil => exact List.Perm.refl _
  | cons y ys ih =>
    by_cases h : k x < k y
    · simp only [insertByDesc, if_pos h]
      exact (ih.cons y).trans (List.Perm.swap x y ys)
    · simp only [insertByDesc, if_neg h]
      exact List.Perm.refl _

theorem sortByDesc_perm {α : Type} (k : α → ℚ) (l : List α) :
    (sortByDesc k l).Perm l := by
  induction l with
  | nil => exact List.Perm.refl _
  | cons x xs ih =>
    exact (insertByDesc_perm k x (sortByDesc k xs)).trans (ih.cons x)

theorem insertByDesc_pairwise {α : Type} (k : α → ℚ) (x : α) {l : List α}
    (h : l.Pairwise (fun a b => k b ≤ k a)) :
    (insertByDesc k x l).Pairwise (fun a b => k b ≤ k a) := by
  induction l with
  | nil => simp [insertByDesc]
  | cons y ys ih =>
    rcases List.pairwise_cons.mp h with ⟨hy, hys⟩
    by_cases hlt : k x < k y
    · simp only [insertByDesc, if_pos hlt]
      refine List.pairwise_cons.mpr ⟨?_, ih hys⟩
      intro z hz
      have hz' : z = x ∨ z ∈ ys := by
        have := (insertByDesc_perm k x ys).mem_iff.mp hz
        simpa using this
      rcases hz' with rfl | hz'
      · exact le_of_lt hlt
      · exact hy z hz'
    · simp only [insertByDesc, if_neg hlt]
      refine List.pairwise_cons.mpr ⟨?_, h⟩
      intro z hz
      rcases List.mem_cons.mp hz with rfl | hz'
      · exact not_lt.mp hlt
      · exact le_trans (hy z hz') (not_lt.mp hlt)

theorem sortByDesc_pairwise {α : Type} (k : α → ℚ) (l : List α) :
    (sortByDesc k l).Pairwise (fun a b => k b ≤ k a) := by
  induction l with
  | nil => simp [sortByDesc]
  | cons x xs ih => exact insertByDesc_pairwise k x ih

theorem sortMarketsDesc_perm (g : List Market) : (sortMarketsDesc g).Perm g :=
  sortByDesc_perm Market.volume g

theorem sortMarketsDesc_pairwise (g : List Market) :
    (sortMarketsDesc g).Pairwise (fun a b => b.volume ≤ a.volume) :=
  sortByDesc_pairwise Market.volume g

theorem sortClustersDesc_perm (l : List MarketCluster) : (sortClustersDesc l).Perm l :=
  sortByDesc_perm MarketCluster.totalVolume l

theorem sortClustersDesc_pairwise (l : List MarketCluster) :
    (sortClustersDesc l).Pairwise (fun a b => b.totalVolume ≤ a.totalVolume) :=
  sortByDesc_pairwise MarketCluster.totalVolume l

/-! ### Lemmas about Step A grouping -/

theorem addToGroups_flatMap_perm (key : String) (m : Market)
    (gs : List (String × List Market)) :
    ((addToGroups key m gs).flatMap Prod.snd).Perm (gs.flatMap Prod.snd ++ [m]) := by
  induction gs with
  | nil => simp [addToGroups]
  | cons p rest ih =>
    rcases p with ⟨k, g⟩
    by_cases h : k = key
    · simp only [addToGroups, if_pos h, List.flatMap_cons]
      have h1 : ((g ++ [m]) ++ rest.flatMap Prod.snd).Perm
          (g ++ (rest.flatMap Prod.snd ++ [m])) := by
        rw [List.append_assoc]
        exact (List.Perm.refl g).append List.perm_append_comm
      have h2 : g ++ (rest.flatMap Prod.snd ++ [m])
          = (g ++ rest.flatMap Prod.snd) ++ [m] := (List.append_assoc _ _ _).symm
      rw [h2] at h1
      exact h1
    · simp only [addToGroups, if_neg h, List.flatMap_cons]
      have h1 : (g ++ (addToGroups key m rest).flatMap Prod.snd).Perm
          (g ++ (rest.flatMap Prod.snd ++ [m])) := (List.Perm.refl g).append ih
      rw [← List.append_assoc] at h1
      exact h1

theorem groupByEvent_flatMap_perm (ms : List Market) :
    ((groupByEvent ms).flatMap Prod.snd).Perm ms := by
  suffices h : ∀ (acc : List (String × List Market)),
      ((ms.foldl (fun acc m => addToGroups (groupKey m) m acc) acc).flatMap Prod.snd).Perm
        (acc.flatMap Prod.snd ++ ms) by
    simpa [groupByEvent] using h []
  induction ms with
  | nil => intro acc; simp
  | cons m rest ih =>
    intro acc
    simp only [List.foldl_cons]
    have h1 := (ih (addToGroups (groupKey m) m acc)).trans
      ((addToGroups_flatMap_perm (groupKey m) m acc).append (List.Perm.refl rest))
    have h2 : (acc.flatMap Prod.snd ++ [m]) ++ rest = acc.flatMap Prod.snd ++ (m :: rest) := by
      simp
    rw [h2] at h1
    exact h1

theorem addToGroups_fst_mem {key : String} {m : Market}
    {gs : List (String × List Market)} {x : String}
    (h : x ∈ (addToGroups key m gs).map Prod.fst) : x ∈ gs.map Prod.fst ∨ x = key := by
  induction gs with
  | nil => simpa [addToGroups] using h
  | cons p rest ih =>
    rcases p with ⟨k, g⟩
    by_cases hk : k = key
    · simp only [addToGroups, if_pos hk, List.map_cons] at h
      exact Or.inl (by simpa using h)
    · simp only [addToGroups, if_neg hk, List.map_cons] at h
      rcases List.mem_cons.mp h with rfl | h'
      · simp
      · rcases ih h' with h'' | h''
        · exact Or.inl (List.mem_cons.mpr (Or.inr h''))
        · exact Or.inr h''

theorem addToGroups_fst_nodup {key : String} {m : Market}
    {gs : List (String × List Market)} (h : (gs.map Prod.fst).Nodup) :
    ((addToGroups key m gs).map Prod.fst).Nodup := by
  induction gs with
  | nil => simp [addToGroups]
  | cons p rest ih =>
    rcases p with ⟨k, g⟩
    rcases List.nodup_cons.mp h with ⟨hk, hrest⟩
    by_cases hkey : k = key
    · simpa only [addToGroups, if_pos hkey, List.map_cons] using h
    · simp only [addToGroups, if_neg hkey, List.map_cons]
      refine List.nodup_cons.mpr ⟨?_, ih hrest⟩
      intro hmem
      rcases addToGroups_fst_mem hmem with h' | h'
      · exact hk h'
      · exact hkey h'

theorem addToGroups_snd_ne_nil {key : String} {m : Market}
    {gs : List (String × List Market)} (h : ∀ p ∈ gs, p.2 ≠ []) :
    ∀ p ∈ addToGroups key m gs, p.2 ≠ [] := by
  induction gs with
  | nil =>
    intro p hp
    simp only [addToGroups, List.mem_singleton] at hp
    subst hp; simp
  | cons q rest ih =>
    rcases q with ⟨k, g⟩
    intro p hp
    by_cases hk : k = key
    · simp only [addToGroups, if_pos hk] at hp
      rcases List.mem_cons.mp hp with rfl | hp'
      · simp
      · exact h p (List.mem_cons.mpr (Or.inr hp'))
    · simp only [addToGroups, if_neg hk] at hp
      rcases List.mem_cons.mp hp with rfl | hp'
      · exact h _ (List.mem_cons.mpr (Or.inl rfl))
      · exact ih (fun q hq => h q (List.mem_cons.mpr (Or.inr hq))) p hp'

theorem groupByEvent_fst_nodup (ms : List Market) :
    ((groupByEvent ms).map Prod.fst).Nodup := by
  suffices h : ∀ (acc : List (String × List Market)), (acc.map Prod.fst).Nodup →
      (((ms.foldl (fun acc m => addToGroups (groupKey m) m acc) acc)).map Prod.fst).Nodup by
    simpa [groupByEvent] using h [] (by simp)
  induction ms with
  | nil => intro acc hacc; simpa using hacc
  | cons m rest ih =>
    intro acc hacc
    simp only [List.foldl_cons]
    exact ih _ (addToGroups_fst_nodup hacc)

theorem groupByEvent_snd_ne_nil (ms : List Market) :
    ∀ p ∈ groupByEvent ms, p.2 ≠ [] := by
  suffices h : ∀ (acc : List (String × List Market)), (∀ p ∈ acc, p.2 ≠ []) →
      ∀ p ∈ ms.foldl (fun acc m => addToGroups (groupKey m) m acc) acc, p.2 ≠ [] by
    simpa [groupByEvent] using h [] (by simp)
  induction ms with
  | nil => intro acc hacc; simpa using hacc
  | cons m rest ih =>
    intro acc hacc
    simp only [List.foldl_cons]
    exact ih _ (addToGroups_snd_ne_nil hacc)

theorem groupByEvent_eq_nil {ms : List Market} (h : groupByEvent ms = []) : ms = [] := by
  have hp := groupByEvent_flatMap_perm ms
  rw [h] at hp
  have hp2 : ms.Perm [] := by simpa using hp.symm
  exact hp2.eq_nil

/-! ### Lemmas about Step B cluster construction -/

theorem buildCluster_elim {k : String} {g : List Market} {c : MarketCluster}
    (h : buildCluster k g = some c) :
    c.eventId = k ∧ c.allMarkets = sortMarketsDesc g
      ∧ (c.eventTitle = "" → c.primaryMarket.title = "") := by
  unfold buildCluster at h
  cases hs : sortMarketsDesc g with
  | nil => rw [hs] at h; cases h
  | cons p rest =>
    rw [hs] at h
    have hc := Option.some.inj h
    subst hc
    refine ⟨rfl, by simp [MarketCluster.allMarkets], ?_⟩
    intro he
    by_cases het : firstEventTitle (p :: rest) ≠ ""
    · simp only [if_pos het] at he
      exact absurd he het
    · simpa only [if_neg het] using he

theorem buildCluster_isSome {k : String} {g : List Market} (h : g ≠ []) :
    ∃ c, buildCluster k g = some c := by
  unfold buildCluster
  cases hs : sortMarketsDesc g with
  | nil =>
    exfalso
    have hper := (sortMarketsDesc_perm g).symm
    rw [hs] at hper
    exact h hper.eq_nil
  | cons p rest => exact ⟨_, rfl⟩

theorem buildCluster_related_le {k : String} {g : List Market} {c : MarketCluster}
    (h : buildCluster k g = some c) :
    (∀ m ∈ c.relatedMarkets, m.volume ≤ c.primaryMarket.volume)
      ∧ c.relatedMarkets.Pairwise (fun a b => b.volume ≤ a.volume) := by
  have hall := (buildCluster_elim h).2.1
  have hp := sortMarketsDesc_pairwise g
  rw [← hall] at hp
  simp only [MarketCluster.allMarkets] at hp
  exact List.pairwise_cons.mp hp

theorem initialClusters_isSome {gs : List (String × List Market)}
    (h : ∀ p ∈ gs, p.2 ≠ []) : ∃ cs, initialClusters gs = some cs := by
  induction gs with
  | nil => exact ⟨[], rfl⟩
  | cons p rest ih =>
    rcases p with ⟨k, g⟩
    obtain ⟨c, hc⟩ := buildCluster_isSome (g := g) (k := k)
      (h _ (List.mem_cons.mpr (Or.inl rfl)))
    obtain ⟨cs, hcs⟩ := ih (fun q hq => h q (List.mem_cons.mpr (Or.inr hq)))
    exact ⟨c :: cs, by simp [initialClusters, hc, hcs]⟩

theorem initialClusters_elim {gs : List (String × List Market)}
    {cs : List MarketCluster} (h : initialClusters gs = some cs) :
    cs.map MarketCluster.eventId = gs.map Prod.fst
      ∧ (cs.flatMap MarketCluster.allMarkets).Perm (gs.flatMap Prod.snd)
      ∧ ∀ c ∈ cs,
          (∀ m ∈ c.relatedMarkets, m.volume ≤ c.primaryMarket.volume)
          ∧ c.relatedMarkets.Pairwise (fun a b => b.volume ≤ a.volume)
          ∧ (c.eventTitle = "" → c.primaryMarket.title = "") := by
  induction gs generalizing cs with
  | nil =>
    have : cs = [] := by
      have := h
      simp only [initialClusters] at this
      exact (Option.some.inj this).symm
    subst this
    exact ⟨rfl, by simp, by simp⟩
  | cons p rest ih =>
    rcases p with ⟨k, g⟩
    simp only [initialClusters, Option.bind_eq_bind] at h
    cases hb : buildCluster k g with
    | none => rw [hb] at h; cases h
    | some c =>
      rw [hb] at h
      cases hr : initialClusters rest with
      | none => rw [hr] at h; cases h
      | some cs' =>
        rw [hr] at h
        simp only [Option.some_bind] at h
        have hcs := Option.some.inj h
        subst hcs
        obtain ⟨ih1, ih2, ih3⟩ := ih hr
        obtain ⟨he1, he2, he3⟩ := buildCluster_elim hb
        refine ⟨by simp [ih1, he1], ?_, ?_⟩
        · simp only [List.flatMap_cons]
          refine List.Perm.append ?_ ih2
          rw [he2]
          exact sortMarketsDesc_perm g
        · intro c' hc'
          rcases List.mem_cons.mp hc' with rfl | hc''
          · obtain ⟨hr1, hr2⟩ := buildCluster_related_le hb
            exact ⟨hr1, hr2, he3⟩
          · exact ih3 c' hc''

/-! ### Lemmas about Step D -/

theorem liveClusters_nil (l : List MarketCluster) : liveClusters [] l = l := by
  unfold liveClusters
  refine List.filter_eq_self.mpr ?_
  intro o _
  simp

theorem liveClusters_append (m1 m2 : List String) (l : List MarketCluster) :
    liveClusters (m1 ++ m2) l
      = (liveClusters m1 l).filter (fun o => decide (o.eventId ∉ m2)) := by
  unfold liveClusters
  rw [List.filter_filter]
  refine List.filter_congr ?_
  intro o _
  by_cases h1 : o.eventId ∈ m1 <;> by_cases h2 : o.eventId ∈ m2 <;>
    simp [h1, h2, List.mem_append]

theorem gatherMatching_elim {seed : MarketCluster}
    {index : List (String × List MarketCluster)} {merged : List String} {e : String}
    (h : e ∈ gatherMatching seed index merged) :
    e ∉ merged ∧ e ≠ seed.eventId
      ∧ ∃ other ∈ (generateClusterKeys seed).flatMap (fun key => indexLookup index key),
          other.eventId = e ∧ clustersAreRelated seed other = true := by
  unfold gatherMatching at h
  rcases List.mem_map.mp h with ⟨other, hmem, rfl⟩
  rcases List.mem_filter.mp hmem with ⟨hcand, hcond⟩
  simp only [Bool.and_eq_true, decide_eq_true_eq] at hcond
  exact ⟨hcond.1.2, hcond.1.1, other, hcand, rfl, hcond.2⟩

theorem absorb_primaryMarket (seed : MarketCluster) (all : List MarketCluster)
    (matching : List String) : (absorb seed all matching).primaryMarket = seed.primaryMarket := by
  unfold absorb
  by_cases h : matching = [] <;> simp [h]

theorem absorb_eventTitle (seed : MarketCluster) (all : List MarketCluster)
    (matching : List String) : (absorb seed all matching).eventTitle = seed.eventTitle := by
  unfold absorb
  by_cases h : matching = [] <;> simp [h]

theorem absorb_eventId (seed : MarketCluster) (all : List MarketCluster)
    (matching : List String) : (absorb seed all matching).eventId = seed.eventId := by
  unfold absorb
  by_cases h : matching = [] <;> simp [h]

theorem absorb_related_pairwise {seed : MarketCluster} {all : List MarketCluster}
    {matching : List String}
    (h : seed.relatedMarkets.Pairwise (fun a b => b.volume ≤ a.volume)) :
    (absorb seed all matching).relatedMarkets.Pairwise (fun a b => b.volume ≤ a.volume) := by
  unfold absorb
  by_cases hm : matching = []
  · simpa [hm] using h
  · simpa [hm] using sortMarketsDesc_pairwise _

theorem absorb_allMarkets_perm (seed : MarketCluster) (all : List MarketCluster)
    (matching : List String) :
    (absorb seed all matching).allMarkets.Perm
      (seed.allMarkets
        ++ clustersMarkets (all.filter (fun o => decide (o.eventId ∈ matching)))) := by
  unfold absorb
  by_cases hm : matching = []
  · subst hm
    simp [clustersMarkets, MarketCluster.allMarkets]
  · simp only [if_neg hm]
    have h1 := (sortMarketsDesc_perm
      (seed.relatedMarkets
        ++ (all.filter (fun o => decide (o.eventId ∈ matching))).flatMap
            MarketCluster.allMarkets)).cons seed.primaryMarket
    simpa [MarketCluster.allMarkets, clustersMarkets] using h1

set_option maxHeartbeats 1000000 in
theorem stepD_mem {all : List MarketCluster} {index : List (String × List MarketCluster)} :
    ∀ {R : List MarketCluster} {merged : List String} {c' : MarketCluster},
      c' ∈ stepD all index R merged →
      ∃ c0 ∈ R, c'.primaryMarket = c0.primaryMarket ∧ c'.eventTitle = c0.eventTitle
        ∧ (c0.relatedMarkets.Pairwise (fun a b => b.volume ≤ a.volume) →
            c'.relatedMarkets.Pairwise (fun a b => b.volume ≤ a.volume)) := by
  intro R
  induction R with
  | nil => intro merged c' h; simp [stepD] at h
  | cons c rest ih =>
    intro merged c' h
    by_cases hc : c.eventId ∈ merged
    · rw [stepD, if_pos hc] at h
      obtain ⟨c0, hc0, hprops⟩ := ih h
      exact ⟨c0, List.mem_cons.mpr (Or.inr hc0), hprops⟩
    · rw [stepD, if_neg hc] at h
      rcases List.mem_cons.mp h with rfl | h'
      · refine ⟨c, List.mem_cons.mpr (Or.inl rfl), absorb_primaryMarket _ _ _,
          absorb_eventTitle _ _ _, fun hp => absorb_related_pairwise hp⟩
      · obtain ⟨c0, hc0, hprops⟩ := ih h'
        exact ⟨c0, List.mem_cons.mpr (Or.inr hc0), hprops⟩

theorem stepD_perm (all : List MarketCluster) (index : List (String × List MarketCluster)) :
    ∀ (R : List MarketCluster) (merged : List String),
      ((R.map MarketCluster.eventId).Nodup) →
      liveClusters merged all = liveClusters merged R →
      (clustersMarkets (stepD all index R merged)).Perm
        (clustersMarkets (liveClusters merged R)) := by
  intro R
  induction R with
  | nil =>
    intro merged _ _
    simp [stepD, liveClusters, clustersMarkets]
  | cons c rest ih =>
    intro merged hnd hlive
    have hnd' : (c.eventId ∉ rest.map MarketCluster.eventId)
        ∧ ((rest.map MarketCluster.eventId).Nodup) := by
      rw [List.map_cons] at hnd
      exact List.nodup_cons.mp hnd
    by_cases hc : c.eventId ∈ merged
    · rw [stepD, if_pos hc]
      have hlive' : liveClusters merged (c :: rest) = liveClusters merged rest := by
        unfold liveClusters
        exact List.filter_cons_of_neg (by simpa using hc)
      rw [hlive']
      exact ih merged hnd'.2 (hlive.trans hlive')
    · rw [stepD, if_neg hc]
      set matching := gatherMatching c index merged with hmdef
      set L := liveClusters merged rest with hLdef
      have f_not_merged : ∀ e ∈ matching, e ∉ merged :=
        fun e he => (gatherMatching_elim he).1
      have f_ne : ∀ e ∈ matching, e ≠ c.eventId :=
        fun e he => (gatherMatching_elim he).2.1
      have c_not_matching : c.eventId ∉ matching := fun h => (f_ne _ h) rfl
      have hrest_ne : ∀ o ∈ rest, o.eventId ≠ c.eventId := by
        intro o ho heq
        exact hnd'.1 (heq ▸ List.mem_map.mpr ⟨o, ho, rfl⟩)
      have hlive_cons : liveClusters merged (c :: rest) = c :: L := by
        unfold liveClusters
        exact List.filter_cons_of_pos (by simpa using hc)
      -- the absorbed clusters, re-expressed over the live part of `rest`
      have eqA : all.filter (fun o => decide (o.eventId ∈ matching))
          = L.filter (fun o => decide (o.eventId ∈ matching)) := by
        have h1 : all.filter (fun o => decide (o.eventId ∈ matching))
            = (liveClusters merged all).filter (fun o => decide (o.eventId ∈ matching)) := by
          unfold liveClusters
          rw [List.filter_filter]
          refine (List.filter_congr ?_)
          intro o _
          by_cases hmem : o.eventId ∈ matching
          · simp [hmem, f_not_merged _ hmem]
          · simp [hmem]
        rw [h1, hlive, hlive_cons,
          List.filter_cons_of_neg (by simpa using c_not_matching)]
      -- the new merged set, as two extra filters
      have hlive_app : ∀ (x : List MarketCluster),
          liveClusters (merged ++ matching ++ [c.eventId]) x
            = ((liveClusters merged x).filter (fun o => decide (o.eventId ∉ matching))).filter
                (fun o => decide (o.eventId ∉ [c.eventId])) := by
        intro x
        rw [liveClusters_append, liveClusters_append]
      have hlive' : liveClusters (merged ++ matching ++ [c.eventId]) all
          = liveClusters (merged ++ matching ++ [c.eventId]) rest := by
        rw [hlive_app, hlive_app, hlive, hlive_cons,
          List.filter_cons_of_pos (by simpa using c_not_matching),
          List.filter_cons_of_neg (by simp)]
      have hIH := ih (merged ++ matching ++ [c.eventId]) hnd'.2 hlive'
      -- simplify the live part that the tail recursion covers
      have hlive_rest : liveClusters (merged ++ matching ++ [c.eventId]) rest
          = L.filter (fun o => decide (o.eventId ∉ matching)) := by
        rw [hlive_app, ← hLdef]
        refine List.filter_eq_self.mpr ?_
        intro o ho
        have ho2 : o ∈ rest := by
          have := List.mem_filter.mp ho
          exact (List.mem_filter.mp this.1).1
        simpa using hrest_ne o ho2
      rw [hlive_rest] at hIH
      -- assemble the permutation
      have h_ab := absorb_allMarkets_perm c all matching
      rw [eqA] at h_ab
      have h_main := h_ab.append hIH
      have h_split : (clustersMarkets (L.filter (fun o => decide (o.eventId ∈ matching)))
            ++ clustersMarkets (L.filter (fun o => decide (o.eventId ∉ matching)))).Perm
          (clustersMarkets L) := by
        have hneg : L.filter (fun o => decide (o.eventId ∉ matching))
            = L.filter (fun o => !(decide (o.eventId ∈ matching))) := by
          refine List.filter_congr ?_
          intro o _
          simp
        rw [hneg]
        unfold clustersMarkets
        rw [← List.flatMap_append]
        exact List.Perm.flatMap_right MarketCluster.allMarkets
          (List.filter_append_perm _ L)
      rw [hlive_cons]
      show (clustersMarkets (absorb c all matching :: stepD all index rest
        (merged ++ matching ++ [c.eventId]))).Perm (clustersMarkets (c :: L))
      unfold clustersMarkets at h_main h_split ⊢
      simp only [List.flatMap_cons]
      refine List.Perm.trans ?_ ((List.Perm.refl c.allMarkets).append h_split)
      have h2 := h_main
      rw [List.append_assoc] at h2
      simpa using h2

/-! ### Top-level pipeline lemmas -/

theorem sortByDesc_ne_nil {α : Type} (k : α → ℚ) {l : List α} (h : l ≠ []) :
    sortByDesc k l ≠ [] := by
  intro hnil
  have hper := (sortByDesc_perm k l).symm
  rw [hnil] at hper
  exact h hper.eq_nil

theorem clusterMarkets_eq {ms : List Market} (hms : ms ≠ []) :
    ∃ init, initialClusters (groupByEvent ms) = some init
      ∧ clusterMarkets ms
          = some (sortClustersDesc
              (stepD (sortClustersDesc init) (buildIndex init) (sortClustersDesc init) [])) := by
  obtain ⟨init, hinit⟩ := initialClusters_isSome (groupByEvent_snd_ne_nil ms)
  refine ⟨init, hinit, ?_⟩
  simp [clusterMarkets, if_neg hms, hinit]

theorem clusterMarkets_out_perm {ms : List Market} {out : List MarketCluster}
    (h : clusterMarkets ms = some out) : (clustersMarkets out).Perm ms := by
  by_cases hms : ms = []
  · subst hms
    simp only [clusterMarkets, if_pos rfl] at h
    have := Option.some.inj h
    subst this
    simp [clustersMarkets]
  · obtain ⟨init, hinit, heq⟩ := clusterMarkets_eq hms
    rw [heq] at h
    have hout := (Option.some.inj h).symm
    subst hout
    obtain ⟨hmap, hperm, _⟩ := initialClusters_elim hinit
    have hnd : ((sortClustersDesc init).map MarketCluster.eventId).Nodup := by
      refine ((sortClustersDesc_perm init).map MarketCluster.eventId).symm.nodup ?_
      rw [hmap]
      exact groupByEvent_fst_nodup ms
    have hstep := stepD_perm (sortClustersDesc init) (buildIndex init)
      (sortClustersDesc init) [] hnd rfl
    rw [liveClusters_nil] at hstep
    have h1 : (clustersMarkets (sortClustersDesc
        (stepD (sortClustersDesc init) (buildIndex init) (sortClustersDesc init) []))).Perm
        (clustersMarkets (stepD (sortClustersDesc init) (buildIndex init)
          (sortClustersDesc init) [])) :=
      List.Perm.flatMap_right MarketCluster.allMarkets (sortClustersDesc_perm _)
    have h2 : (clustersMarkets (sortClustersDesc init)).Perm (clustersMarkets init) :=
      List.Perm.flatMap_right MarketCluster.allMarkets (sortClustersDesc_perm _)
    have h3 : (clustersMarkets init).Perm ms := by
      unfold clustersMarkets
      exact hperm.trans (groupByEvent_flatMap_perm ms)
    exact ((h1.trans hstep).trans h2).trans h3

theorem clusterMarkets_out_props {ms : List Market} {out : List MarketCluster}
    (h : clusterMarkets ms = some out) :
    out.Pairwise (fun a b => b.totalVolume ≤ a.totalVolume)
      ∧ ∀ c ∈ out, c.relatedMarkets.Pairwise (fun a b => b.volume ≤ a.volume)
          ∧ (c.eventTitle = "" → c.primaryMarket.title = "") := by
  by_cases hms : ms = []
  · subst hms
    simp only [clusterMarkets, if_pos rfl] at h
    have := Option.some.inj h
    subst this
    simp
  · obtain ⟨init, hinit, heq⟩ := clusterMarkets_eq hms
    rw [heq] at h
    have hout := (Option.some.inj h).symm
    subst hout
    refine ⟨sortClustersDesc_pairwise _, ?_⟩
    intro c hc
    have hc1 : c ∈ stepD (sortClustersDesc init) (buildIndex init) (sortClustersDesc init) [] :=
      (sortClustersDesc_perm _).mem_iff.mp hc
    obtain ⟨c0, hc0, hprim, htitle, hpair⟩ := stepD_mem hc1
    have hc0init : c0 ∈ init := (sortClustersDesc_perm init).mem_iff.mp hc0
    obtain ⟨_, hp2, hp3⟩ := (initialClusters_elim hinit).2.2 c0 hc0init
    refine ⟨hpair hp2, ?_⟩
    intro he
    rw [hprim]
    exact hp3 (htitle ▸ he)

theorem clusterMarkets_total {ms : List Market} :
    ∃ out, clusterMarkets ms = some out ∧ (ms = [] → out = []) ∧ (ms ≠ [] → out ≠ []) := by
  by_cases hms : ms = []
  · subst hms
    exact ⟨[], by simp [clusterMarkets], fun _ => rfl, fun hn => absurd rfl hn⟩
  · obtain ⟨init, hinit, heq⟩ := clusterMarkets_eq hms
    refine ⟨_, heq, fun he => absurd he hms, fun _ => ?_⟩
    have hgs : groupByEvent ms ≠ [] := fun hg => hms (groupByEvent_eq_nil hg)
    have hinit_ne : init ≠ [] := by
      intro hi
      apply hgs
      have hmap := (initialClusters_elim hinit).1
      rw [hi] at hmap
      have : (groupByEvent ms).map Prod.fst = [] := hmap.symm
      simpa using List.map_eq_nil_iff.mp this
    have hS : sortClustersDesc init ≠ [] := sortByDesc_ne_nil _ hinit_ne
    cases hSc : sortClustersDesc init with
    | nil => exact absurd hSc hS
    | cons c rest =>
      rw [stepD, if_neg (by simp)]
      exact sortByDesc_ne_nil _ (by simp)

/-! ### Lemmas about the key extractor and the similarity validator -/

theorem clustersAreRelated_elim {c1 c2 : MarketCluster}
    (h : clustersAreRelated c1 c2 = true) :
    c1.primaryMarket.platform ≠ c2.primaryMarket.platform
      ∧ mkRat 35 100 ≤ clusterSimilarity c1 c2 := by
  unfold clustersAreRelated at h
  by_cases hp : c1.primaryMarket.platform = c2.primaryMarket.platform
  · rw [if_pos hp] at h; cases h
  · rw [if_neg hp] at h
    by_cases hw : relWordSet c1 = [] ∨ relWordSet c2 = []
    · rw [if_pos hw] at h; cases h
    · rw [if_neg hw] at h
      exact ⟨hp, of_decide_eq_true h⟩

theorem properNounKeys_length_le (text : String) : (properNounKeys text).length ≤ 2 := by
  unfold properNounKeys
  cases hpn : properNounsOf text with
  | nil => simp
  | cons p rest =>
    cases rest with
    | nil =>
      by_cases hl : (firstLongest p []).length > 4 <;> simp [hl]
    | cons q qs =>
      by_cases hl : (firstLongest p (q :: qs)).length > 4 <;> simp [hl]

theorem fallbackKeys_of_properNoun {text : String} (h : properNounKeys text ≠ []) :
    fallbackKeys text = [] := by
  unfold fallbackKeys
  rw [if_neg (fun hcon => h hcon.1)]

theorem fallbackKeys_length_le (text : String) : (fallbackKeys text).length ≤ 1 := by
  unfold fallbackKeys
  by_cases h1 : properNounKeys text = [] ∧ (keyWords text).length ≥ 3
  · rw [if_pos h1]
    by_cases h2 : ((keyWords text).filter (fun w => w.length ≥ 4)).length ≥ 2 <;> simp [h2]
  · rw [if_neg h1]; simp

theorem vsKeys_length_le (text : String) : (vsKeys text).length ≤ 1 := by
  unfold vsKeys
  cases hv : findVs text with
  | none => simp
  | some g =>
    rcases g with ⟨g1, g2⟩
    by_cases hs : toLowerStr g1 ∉ STOP_WORDS ∧ toLowerStr g2 ∉ STOP_WORDS <;> simp [hs]

/-! ### Claim theorems -/

/-- C1: for every input list of markets, every input market appears in
exactly one cluster of the returned list, counting a cluster's membership as
its `primary_market` together with its `related_markets`: the concatenated
membership of the output is a permutation of the input, so each market value
occurs in the output exactly as often as in the input — none is lost,
none is duplicated. -/
theorem cluster_markets_partition (ms : List Market) (out : List MarketCluster)
    (h : clusterMarkets ms = some out) :
    (clustersMarkets out).Perm ms
      ∧ ∀ m : Market, List.count m (clustersMarkets out) = List.count m ms :=
  ⟨clusterMarkets_out_perm h, fun m => (clusterMarkets_out_perm h).count_eq m⟩

/-- Witness for C1 on a concrete three-market input whose clusters merge. -/
theorem cluster_markets_partition_witness :
    clusterMarkets [exM1, exM2, exM3] = some [exMerged]
      ∧ (clustersMarkets [exMerged]).Perm [exM1, exM2, exM3] := by
  have h : clusterMarkets [exM1, exM2, exM3] = some [exMerged] := by decide
  exact ⟨h, (cluster_markets_partition _ _ h).1⟩

/-- C2 counterexample: after the Phase-D merge of `[exM1, exM2, exM3]`, the
returned cluster's primary market has volume 100 while the absorbed related
market `exM3` has volume 150, so "primary.volume ≥ every related.volume"
fails on the output of `cluster_markets`. -/
theorem volume_order_counterexample :
    clusterMarkets [exM1, exM2, exM3] = some [exMerged]
      ∧ exM3 ∈ exMerged.relatedMarkets
      ∧ exMerged.primaryMarket.volume < exM3.volume := by
  refine ⟨by decide, by decide, by decide⟩

/-- C2 amended: the returned cluster list is sorted by `total_volume`
descending and every cluster's `related_markets` list is sorted by volume
descending; the primary-maximality clause holds for the Phase-A/B initial
clusters, but a Phase-D merge can absorb a market whose volume exceeds the
seed's primary volume (see the counterexample), so it does not survive
merging. -/
theorem volume_order_amended (ms : List Market) (out init : List MarketCluster)
    (h : clusterMarkets ms = some out)
    (hi : initialClusters (groupByEvent ms) = some init) :
    out.Pairwise (fun a b => b.totalVolume ≤ a.totalVolume)
      ∧ (∀ c ∈ out, c.relatedMarkets.Pairwise (fun a b => b.volume ≤ a.volume))
      ∧ ∀ c ∈ init, ∀ m ∈ c.relatedMarkets, m.volume ≤ c.primaryMarket.volume := by
  obtain ⟨h1, h2⟩ := clusterMarkets_out_props h
  exact ⟨h1, fun c hc => (h2 c hc).1, fun c hc => ((initialClusters_elim hi).2.2 c hc).1⟩

/-- Witness for the amended C2 on the merging three-market input. -/
theorem volume_order_amended_witness :
    ([exMerged].Pairwise (fun a b => b.totalVolume ≤ a.totalVolume))
      ∧ (∀ c ∈ [exMerged], c.relatedMarkets.Pairwise (fun a b => b.volume ≤ a.volume))
      ∧ ∀ c ∈ [exInit1, exInit2], ∀ m ∈ c.relatedMarkets, m.volume ≤ c.primaryMarket.volume :=
  volume_order_amended [exM1, exM2, exM3] [exMerged] [exInit1, exInit2]
    (by decide) (by decide)

/-- C3: Phase D only absorbs candidates validated by
`_clusters_are_related`; that validator rejects every same-platform pair and
every pair whose Jaccard similarity is below the 0.35 threshold, so Phase D
never merges two same-platform clusters nor two different-platform clusters
scoring below the threshold (`mkRat 35 100` is exactly `35/100`). -/
theorem phase_d_merge_gating :
    (∀ (seed : MarketCluster) (index : List (String × List MarketCluster))
        (merged : List String) (e : String), e ∈ gatherMatching seed index merged →
        ∃ other, other ∈ (generateClusterKeys seed).flatMap (fun key => indexLookup index key)
          ∧ other.eventId = e ∧ clustersAreRelated seed other = true
          ∧ seed.primaryMarket.platform ≠ other.primaryMarket.platform
          ∧ mkRat 35 100 ≤ clusterSimilarity seed other)
    ∧ (∀ c1 c2 : MarketCluster, c1.primaryMarket.platform = c2.primaryMarket.platform →
        clustersAreRelated c1 c2 = false)
    ∧ (∀ c1 c2 : MarketCluster, clusterSimilarity c1 c2 < mkRat 35 100 →
        clustersAreRelated c1 c2 = false)
    ∧ mkRat 35 100 = (35 : ℚ) / 100 := by
  refine ⟨?_, ?_, ?_, ?_⟩
  · intro seed index merged e he
    obtain ⟨_, _, other, hmem, heid, hrel⟩ := gatherMatching_elim he
    obtain ⟨hp, hs⟩ := clustersAreRelated_elim hrel
    exact ⟨other, hmem, heid, hrel, hp, hs⟩
  · intro c1 c2 hp
    unfold clustersAreRelated
    rw [if_pos hp]
  · intro c1 c2 hs
    cases hb : clustersAreRelated c1 c2 with
    | false => rfl
    | true => exact absurd (clustersAreRelated_elim hb).2 (not_le.mpr hs)
  · rw [Rat.mkRat_eq_div]
    norm_num

/-- Witness for C3: a same-platform pair is rejected, a below-threshold
cross-platform pair is rejected, and a validated pair is cross-platform with
similarity at least the threshold. -/
theorem phase_d_merge_gating_witness :
    (exLakers.primaryMarket.platform = exCeltics.primaryMarket.platform
      ∧ clustersAreRelated exLakers exCeltics = false)
    ∧ (clusterSimilarity exLakers exZebra < mkRat 35 100
      ∧ clustersAreRelated exLakers exZebra = false)
    ∧ ("eB" ∈ gatherMatching exAlphaK [("alpha_bravo", [exAlphaP])] []
      ∧ clustersAreRelated exAlphaK exAlphaP = true) := by
  refine ⟨⟨by decide, phase_d_merge_gating.2.1 exLakers exCeltics (by decide)⟩,
    ⟨by decide, phase_d_merge_gating.2.2.1 exLakers exZebra (by decide)⟩,
    by decide, by decide⟩

/-- C4 counterexample: `cluster_markets` always fills a cluster's
`event_title`, defaulting it to the primary title, and
`get_representative_text` then prepends it to the primary title; hence for a
cluster whose members have no event title the representative text repeats the
primary title instead of being the title alone. -/
theorem representative_text_counterexample :
    clusterMarkets [exSnow] = some [exSnowCluster]
      ∧ exSnow.eventTitle = ""
      ∧ exSnowCluster.getRepresentativeText = "Snow Snow"
      ∧ exSnowCluster.getRepresentativeText ≠ exSnow.title := by
  refine ⟨by decide, rfl, by decide, by decide⟩

/-- C4 amended: the representative text is the cluster's `event_title` (when
non-empty) concatenated with the primary title and, if present, the primary
subtitle; and for every cluster produced by `cluster_markets` the
`event_title` slot is empty only when the primary title is itself empty —
construction defaults it to the primary title — so with no member event title
the primary title appears twice. -/
theorem representative_text_amended (ms : List Market) (out : List MarketCluster)
    (c : MarketCluster) (h : clusterMarkets ms = some out) (hc : c ∈ out) :
    c.getRepresentativeText
        = joinWith " "
            ((if c.eventTitle ≠ "" then [c.eventTitle] else [])
              ++ [c.primaryMarket.title]
              ++ (if c.primaryMarket.subtitle ≠ "" then [c.primaryMarket.subtitle] else []))
      ∧ (c.eventTitle = "" → c.primaryMarket.title = "") :=
  ⟨rfl, ((clusterMarkets_out_props h).2 c hc).2⟩

/-- Witness for the amended C4 on the single-market input. -/
theorem representative_text_amended_witness :
    exSnowCluster.getRepresentativeText
        = joinWith " "
            ((if exSnowCluster.eventTitle ≠ "" then [exSnowCluster.eventTitle] else [])
              ++ [exSnowCluster.primaryMarket.title]
              ++ (if exSnowCluster.primaryMarket.subtitle ≠ ""
                  then [exSnowCluster.primaryMarket.subtitle] else []))
      ∧ (exSnowCluster.eventTitle = "" → exSnowCluster.primaryMarket.title = "") :=
  representative_text_amended [exSnow] [exSnowCluster] exSnowCluster (by decide) (by decide)

/-- C5: on every well-formed input `cluster_markets` raises no exception
(the embedding returns `some`), returns the empty list exactly on empty
input, and returns a non-empty cluster list on non-empty input. -/
theorem cluster_markets_no_failure (ms : List Market) :
    ∃ out, clusterMarkets ms = some out ∧ (ms = [] → out = []) ∧ (ms ≠ [] → out ≠ []) :=
  clusterMarkets_total

/-- Witness for C5 on a concrete input. -/
theorem cluster_markets_no_failure_witness :
    (clusterMarkets [exSnow]).isSome = true ∧ clusterMarkets [exSnow] ≠ some [] := by
  obtain ⟨out, h1, _, h3⟩ := cluster_markets_no_failure [exSnow]
  refine ⟨by rw [h1]; rfl, ?_⟩
  rw [h1]
  intro hcontra
  exact h3 (by simp) (Option.some.inj hcontra)

/-- C6 counterexample: the representative text "Nuggets vs 2025" matches
`<token> vs <token>` with the non-stop-word tokens "Nuggets" and "2025", yet
key extraction emits no pairing key at all — the year is stripped before the
`vs` pattern is searched, leaving no second token. -/
theorem pairing_key_counterexample :
    findVs exVsYear.getRepresentativeText = some ("Nuggets", "2025")
      ∧ "nuggets" ∉ STOP_WORDS ∧ "2025" ∉ STOP_WORDS
      ∧ "vs_2025_nuggets" ∉ generateClusterKeys exVsYear
      ∧ generateClusterKeys exVsYear = ["nuggets"] := by
  refine ⟨by decide, by decide, by decide, by decide, by decide⟩

/-- C6 amended: if the year-stripped representative text matches
`<token> (vs|versus|v|@) <token>` case-insensitively and neither lowercased
token is a stop word, key extraction emits `vs_` followed by the two
lowercased tokens sorted lexicographically and joined — so token order in the
source text does not matter. -/
theorem pairing_key_amended (c : MarketCluster) (t1 t2 : String)
    (h : findVs (stripYears c.getRepresentativeText) = some (t1, t2))
    (h1 : toLowerStr t1 ∉ STOP_WORDS) (h2 : toLowerStr t2 ∉ STOP_WORDS) :
    (if strLt (toLowerStr t2) (toLowerStr t1)
      then "vs_" ++ toLowerStr t2 ++ "_" ++ toLowerStr t1
      else "vs_" ++ toLowerStr t1 ++ "_" ++ toLowerStr t2) ∈ generateClusterKeys c := by
  have hvs : vsKeys (stripYears c.getRepresentativeText)
      = [if strLt (toLowerStr t2) (toLowerStr t1)
          then "vs_" ++ toLowerStr t2 ++ "_" ++ toLowerStr t1
          else "vs_" ++ toLowerStr t1 ++ "_" ++ toLowerStr t2] := by
    simp only [vsKeys, h]
    rw [if_pos ⟨h1, h2⟩]
  unfold generateClusterKeys keysFromText
  rw [hvs]
  simp

/-- Witness for the amended C6: "Lakers vs Celtics" and "Celtics vs Lakers"
yield the identical pairing key. -/
theorem pairing_key_amended_witness :
    "vs_celtics_lakers" ∈ generateClusterKeys exLakers
      ∧ "vs_celtics_lakers" ∈ generateClusterKeys exCeltics := by
  constructor
  · have h := pairing_key_amended exLakers "Lakers" "Celtics" (by decide) (by decide) (by decide)
    have he : (if strLt (toLowerStr "Celtics") (toLowerStr "Lakers")
        then "vs_" ++ toLowerStr "Celtics" ++ "_" ++ toLowerStr "Lakers"
        else "vs_" ++ toLowerStr "Lakers" ++ "_" ++ toLowerStr "Celtics")
        = "vs_celtics_lakers" := by decide
    rwa [he] at h
  · have h := pairing_key_amended exCeltics "Celtics" "Lakers" (by decide) (by decide) (by decide)
    have he : (if strLt (toLowerStr "Lakers") (toLowerStr "Celtics")
        then "vs_" ++ toLowerStr "Lakers" ++ "_" ++ toLowerStr "Celtics"
        else "vs_" ++ toLowerStr "Celtics" ++ "_" ++ toLowerStr "Lakers")
        = "vs_celtics_lakers" := by decide
    rwa [he] at h

/-- C7 counterexample: for the text "cat alpha bravo charlie" the fallback
conditions hold, but the emitted key joins the first three stop-filtered
tokens of length ≥ 4 — "alpha_bravo_charlie" — not the first three
stop-filtered tokens "cat_alpha_bravo" as the claim states. -/
theorem fallback_key_counterexample :
    properNounKeys (stripYears exWords.getRepresentativeText) = []
      ∧ keyWords (stripYears exWords.getRepresentativeText)
          = ["cat", "alpha", "bravo", "charlie"]
      ∧ generateClusterKeys exWords = ["alpha_bravo_charlie"]
      ∧ "cat_alpha_bravo" ∉ generateClusterKeys exWords := by
  refine ⟨by decide, by decide, by decide, by decide⟩

/-- C7 amended: the fallback words key is emitted if and only if no
proper-noun key exists, at least 3 stop-filtered tokens remain and at least 2
of them have length ≥ 4; when emitted it is the underscore-join of the first
(up to) three stop-filtered tokens of length ≥ 4. -/
theorem fallback_key_amended (c : MarketCluster) :
    (fallbackKeys (stripYears c.getRepresentativeText) ≠ []
        ↔ properNounKeys (stripYears c.getRepresentativeText) = []
          ∧ (keyWords (stripYears c.getRepresentativeText)).length ≥ 3
          ∧ ((keyWords (stripYears c.getRepresentativeText)).filter
              (fun w => w.length ≥ 4)).length ≥ 2)
      ∧ ∀ k ∈ fallbackKeys (stripYears c.getRepresentativeText),
          k = joinWith "_"
              (((keyWords (stripYears c.getRepresentativeText)).filter
                (fun w => w.length ≥ 4)).take 3)
            ∧ k ∈ generateClusterKeys c := by
  constructor
  · constructor
    · intro hne
      by_cases hc1 : properNounKeys (stripYears c.getRepresentativeText) = []
          ∧ (keyWords (stripYears c.getRepresentativeText)).length ≥ 3
      · by_cases hc2 : ((keyWords (stripYears c.getRepresentativeText)).filter
            (fun w => w.length ≥ 4)).length ≥ 2
        · exact ⟨hc1.1, hc1.2, hc2⟩
        · exfalso
          apply hne
          unfold fallbackKeys
          rw [if_pos hc1, if_neg hc2]
      · exfalso
        apply hne
        unfold fallbackKeys
        rw [if_neg hc1]
    · rintro ⟨ha, hb, hc2⟩
      unfold fallbackKeys
      rw [if_pos ⟨ha, hb⟩, if_pos hc2]
      simp
  · intro k hk
    have hcases : k = joinWith "_"
        (((keyWords (stripYears c.getRepresentativeText)).filter
          (fun w => w.length ≥ 4)).take 3) := by
      unfold fallbackKeys at hk
      by_cases hc1 : properNounKeys (stripYears c.getRepresentativeText) = []
          ∧ (keyWords (stripYears c.getRepresentativeText)).length ≥ 3
      · rw [if_pos hc1] at hk
        by_cases hc2 : ((keyWords (stripYears c.getRepresentativeText)).filter
            (fun w => w.length ≥ 4)).length ≥ 2
        · rw [if_pos hc2] at hk
          simpa using hk
        · rw [if_neg hc2] at hk
          cases hk
      · rw [if_neg hc1] at hk
        cases hk
    refine ⟨hcases, ?_⟩
    unfold generateClusterKeys keysFromText
    exact List.mem_append.mpr (Or.inl (List.mem_append.mpr (Or.inr hk)))

/-- Witness for the amended C7 on the "cat alpha bravo charlie" cluster. -/
theorem fallback_key_amended_witness :
    "alpha_bravo_charlie"
        = joinWith "_"
            (((keyWords (stripYears exWords.getRepresentativeText)).filter
              (fun w => w.length ≥ 4)).take 3)
      ∧ "alpha_bravo_charlie" ∈ generateClusterKeys exWords :=
  (fallback_key_amended exWords).2 "alpha_bravo_charlie" (by decide)

/-- C8 counterexample: the year pattern is `\b20\d{2}\b`, so the bare 4-digit
year 1999 is not stripped; the texts "alpha bravo 1999 charlie" and
"alpha bravo charlie" differ only in a bare 4-digit year mention yet extract
different keys. A `20xx` mention (2024) is stripped and leaves the keys
identical. -/
theorem year_strip_counterexample :
    stripYears exYr1999.getRepresentativeText = exYr1999.getRepresentativeText
      ∧ generateClusterKeys exYr1999 = ["alpha_bravo_1999"]
      ∧ generateClusterKeys exNoYear = ["alpha_bravo_charlie"]
      ∧ generateClusterKeys exYr1999 ≠ generateClusterKeys exNoYear
      ∧ generateClusterKeys exYr2024 = generateClusterKeys exNoYear := by
  refine ⟨by decide, by decide, by decide, by decide, by decide⟩

/-- C8 amended: key extraction begins by deleting every standalone token of
the form `20\d{2}` (years 2000-2099) from the representative text; any two
clusters whose representative texts agree after this stripping extract
identical keys, so a co-occurring `20xx` mention can never create or destroy
a key match. Bare 4-digit tokens outside 2000-2099 (such as 1999) are kept. -/
theorem year_strip_amended (c1 c2 : MarketCluster)
    (h : stripYears c1.getRepresentativeText = stripYears c2.getRepresentativeText) :
    generateClusterKeys c1 = generateClusterKeys c2 := by
  unfold generateClusterKeys
  rw [h]

/-- Witness for the amended C8: "Alpha 2024 Bravo" and "Alpha 2025 Bravo"
strip to the same text and extract the same keys. -/
theorem year_strip_amended_witness :
    stripYears exMid2024.getRepresentativeText = stripYears exMid2025.getRepresentativeText
      ∧ generateClusterKeys exMid2024 = generateClusterKeys exMid2025 :=
  ⟨by decide, year_strip_amended exMid2024 exMid2025 (by decide)⟩

/-- C9: `cluster_markets` never mutates an input market: the embedding is a
pure function over immutable `Market` records (the source contains no
assignment to a market field), and every market occurring in any output
cluster is literally one of the input records — all its fields are exactly
those of an input market. -/
theorem cluster_markets_immutable (ms : List Market) (out : List MarketCluster)
    (h : clusterMarkets ms = some out) :
    ∀ c ∈ out, ∀ m ∈ c.allMarkets, m ∈ ms := by
  intro c hc m hm
  have hmem : m ∈ clustersMarkets out := by
    unfold clustersMarkets
    exact List.mem_flatMap.mpr ⟨c, hc, hm⟩
  exact (clusterMarkets_out_perm h).mem_iff.mp hmem

/-- Witness for C9: the absorbed market of the merged cluster is one of the
input records. -/
theorem cluster_markets_immutable_witness : exM3 ∈ [exM1, exM2, exM3] :=
  cluster_markets_immutable [exM1, exM2, exM3] [exMerged] (by decide)
    exMerged (by decide) exM3 (by decide)

/-- C10: key extraction returns at most 3 keys per cluster: at most two
proper-noun keys, at most one fallback words key — emitted only when no
proper-noun key exists — and at most one pairing key. -/
theorem cluster_keys_at_most_three (c : MarketCluster) :
    (generateClusterKeys c).length ≤ 3
      ∧ (properNounKeys (stripYears c.getRepresentativeText)).length ≤ 2
      ∧ (properNounKeys (stripYears c.getRepresentativeText) ≠ [] →
          fallbackKeys (stripYears c.getRepresentativeText) = [])
      ∧ (fallbackKeys (stripYears c.getRepresentativeText)).length ≤ 1
      ∧ (vsKeys (stripYears c.getRepresentativeText)).length ≤ 1 := by
  have hpn := properNounKeys_length_le (stripYears c.getRepresentativeText)
  have hfb := fallbackKeys_length_le (stripYears c.getRepresentativeText)
  have hvs := vsKeys_length_le (stripYears c.getRepresentativeText)
  refine ⟨?_, hpn, fun h => fallbackKeys_of_properNoun h, hfb, hvs⟩
  unfold generateClusterKeys keysFromText
  rw [List.length_append, List.length_append]
  by_cases hne : properNounKeys (stripYears c.getRepresentativeText) = []
  · rw [hne]
    simp only [List.length_nil]
    omega
  · rw [fallbackKeys_of_properNoun hne]
    simp only [List.length_nil]
    omega

/-- Witness for C10: the "Lakers vs Celtics" cluster reaches the bound with
exactly three keys, and its non-empty proper-noun keys suppress the fallback
key. -/
theorem cluster_keys_at_most_three_witness :
    generateClusterKeys exLakers = ["celtics", "lakers_celtics", "vs_celtics_lakers"]
      ∧ fallbackKeys (stripYears exLakers.getRepresentativeText) = [] :=
  ⟨by decide, (cluster_keys_at_most_three exLakers).2.2.1 (by decide)⟩

end MarketBot
